import Mathlib

/-!
Shallow embedding of the yt-player playback core (Go sources:
`internal/queue/queue.go`, `internal/playlist/manager.go`, and the
`player` package) together with proofs about its queue ordering,
history ring, admission checks, playback state machine and fallback
playlist sequencing.

Modelling conventions:
- Go `*Track` pointers stored in slices are modelled as plain `Track`
  values; nilable slots of the ring buffer are `Option Track`.
- Go `int` fields are modelled as `Int` (timestamps as abstract integer
  counts supplied by callers, since `time.Now()` is external).
- External collaborators (metadata resolution, playlist fetching, the
  RNG used for shuffling) are modelled as parameters supplied to the
  operations they feed.
- A Go method that mutates its receiver becomes a function returning the
  updated value; a Go method returning an `error` returns an
  `Option String` (the error message) alongside the new state.
-/

/-- `queue.Track` from `internal/queue/queue.go`. -/
structure Track where
  videoID : String
  title : String
  durationSec : Int
  views : Int
  addedAt : Int
  addedBy : String
  isPaid : Bool
deriving Repr, DecidableEq

/-- `youtube.VideoInfo`: the result of an external metadata lookup. -/
structure VideoInfo where
  title : String
  duration : Int
  views : Int
  embeddable : Bool
deriving Repr, DecidableEq

/-- The configuration snapshot returned by `cfg.Get()`. -/
structure Config where
  maxDurationMinutes : Int
  minViews : Int
  repeatLimit : Int
  maxQueueSize : Int
deriving Repr, DecidableEq

namespace Priority

/-- The insertion position computed by the loop in `Priority.addLocked`:
`pos` ends up one past the last element of the initial run of paid
tracks (the loop breaks at the first unpaid element). -/
def paidPrefixLen : List Track → Nat
  | [] => 0
  | t :: ts => if t.isPaid then paidPrefixLen ts + 1 else 0

/-- `Priority.addLocked` from `internal/queue/queue.go`: paid or
front-inserted tracks are spliced in at `pos` (0 for front, otherwise
the end of the paid prefix); unpaid tracks are appended. -/
def addLocked (items : List Track) (t : Track) (front : Bool) : List Track :=
  if t.isPaid || front then
    let pos := if front then 0 else paidPrefixLen items
    items.take pos ++ t :: items.drop pos
  else
    items ++ [t]

/-- `Priority.Add`. -/
def add (items : List Track) (t : Track) : List Track :=
  addLocked items t false

/-- `Priority.AddFront`. -/
def addFront (items : List Track) (t : Track) : List Track :=
  addLocked items t true

/-- `Priority.Next`: removes and returns the head element. -/
def next (items : List Track) : Option Track × List Track :=
  match items with
  | [] => (none, [])
  | t :: ts => (some t, ts)

/-- `Priority.RemoveAt`: removes element `i`, or signals out-of-range. -/
def removeAt (items : List Track) (i : Int) : Option (Track × List Track) :=
  if i < 0 ∨ (items.length : Int) ≤ i then none
  else
    (items.get? i.toNat).map fun t =>
      (t, items.take i.toNat ++ items.drop (i.toNat + 1))

end Priority

/-- `queue.RingBuffer` from `internal/queue/queue.go`: Go's `[]*Track`
backing slice is an array of nilable slots. -/
structure RingBuffer where
  buf : Array (Option Track)
  head : Nat
  size : Nat
  rcap : Nat
deriving Repr, DecidableEq

namespace RingBuffer

/-- `queue.NewRingBuffer`. -/
def new (capacity : Nat) : RingBuffer :=
  ⟨Array.mkArray capacity none, 0, 0, capacity⟩

/-- `RingBuffer.Push`: writes at `head`, advances it modulo the
capacity, and grows `size` until the buffer is full. -/
def push (r : RingBuffer) (t : Track) : RingBuffer :=
  { buf := r.buf.setD r.head (some t)
    head := (r.head + 1) % r.rcap
    size := if r.size < r.rcap then r.size + 1 else r.size
    rcap := r.rcap }

/-- `RingBuffer.Pop`: decrements `size`, then reads and clears the slot
at `(head - 1 - size%cap + cap) % cap` (Go `int` arithmetic; the
numerator is nonnegative whenever `head < cap`, so Go's truncated `%`
agrees with `Int.emod` here). -/
def pop (r : RingBuffer) : Option Track × RingBuffer :=
  if r.size = 0 then (none, r)
  else
    let size1 := r.size - 1
    let idx : Int := ((r.head : Int) - 1 - (size1 % r.rcap : Nat) + r.rcap) % r.rcap
    let i := idx.toNat
    (r.buf.getD i none, { r with size := size1, buf := r.buf.setD i none })

/-- `RingBuffer.Len`. -/
def len (r : RingBuffer) : Nat := r.size

/-- `RingBuffer.Snapshot`: oldest-to-newest copy of the occupied
window, starting at `(head - size + cap) % cap`. -/
def snapshot (r : RingBuffer) : List (Option Track) :=
  let start := (((r.head : Int) - r.size + r.rcap) % r.rcap).toNat
  (List.range r.size).map fun i => r.buf.getD ((start + i) % r.rcap) none

end RingBuffer

/-- `playlist.Manager` from `internal/playlist/manager.go`. The Go
`map[int]int` shuffle map is an association list; the mutex and the
external clients (`ytClient`, `cache`) have no in-memory state
relevant here. -/
structure Manager where
  playlistID : String
  tracks : List Track
  shuffleMap : List (Int × Int)
  currentIndex : Int
  isShuffled : Bool
  isEnabled : Bool
deriving Repr, DecidableEq

namespace Manager

/-- `playlist.New`. -/
def new : Manager :=
  ⟨"", [], [], 0, false, false⟩

/-- The fresh `queue.Track` value built by `GetNext`/`GetAt` from a
stored template: same metadata, new `AddedAt`, `AddedBy = "Playlist"`
(and Go's zero value `false` for `IsPaid`). -/
def freshTrack (src : Track) (now : Int) : Track :=
  { videoID := src.videoID
    title := src.title
    durationSec := src.durationSec
    views := src.views
    addedAt := now
    addedBy := "Playlist"
    isPaid := false }

/-- The index resolution performed at the start of `Manager.GetNext`:
the cursor, routed through the shuffle map when shuffling is on. -/
def resolveIdx (m : Manager) : Int :=
  let idx := m.currentIndex
  if m.isShuffled then
    match m.shuffleMap.lookup idx with
    | some s => s
    | none => idx
  else idx

/-- `Manager.GetNext`: peeks (never advances the cursor); an index at
or past the end is clamped to 0 before the dereference. A negative
index would be an out-of-range slice access in Go (a panic); it is
modelled as `none` and is unreachable from maintained cursor values. -/
def getNext (m : Manager) (now : Int) : Option Track :=
  if ¬ m.isEnabled ∨ m.tracks.length = 0 then none
  else
    let idx := m.resolveIdx
    let idx := if (m.tracks.length : Int) ≤ idx then 0 else idx
    if idx < 0 then none
    else (m.tracks.get? idx.toNat).map (freshTrack · now)

/-- `Manager.AdvanceToNext`: increments the cursor, wrapping to 0 at
the end; on a wrap with shuffling enabled, `reshuffleLocked` installs a
freshly generated permutation (the RNG being external, the new map is
supplied as the `fresh` parameter). -/
def advanceToNext (m : Manager) (fresh : List (Int × Int)) : Manager :=
  let ci := m.currentIndex + 1
  if (m.tracks.length : Int) ≤ ci then
    { m with currentIndex := 0
             shuffleMap := if m.isShuffled then fresh else m.shuffleMap }
  else { m with currentIndex := ci }

/-- `Manager.GetAt`: bounds-checked read returning a fresh copy. -/
def getAt (m : Manager) (i : Int) (now : Int) : Option Track :=
  if i < 0 ∨ (m.tracks.length : Int) ≤ i then none
  else (m.tracks.get? i.toNat).map (freshTrack · now)

/-- `Manager.GoToPrevious`: decrements the cursor, wrapping to
`len - 1` below 0. -/
def goToPrevious (m : Manager) : Manager :=
  let ci := m.currentIndex - 1
  if ci < 0 then { m with currentIndex := (m.tracks.length : Int) - 1 }
  else { m with currentIndex := ci }

/-- `Manager.JumpToIndex`: bounds-checked cursor assignment. -/
def jumpToIndex (m : Manager) (i : Int) : Except String Manager :=
  if i < 0 ∨ (m.tracks.length : Int) ≤ i then Except.error "index out of range"
  else Except.ok { m with currentIndex := i }

/-- `Manager.Enable`. -/
def enable (m : Manager) : Manager := { m with isEnabled := true }

/-- `Manager.Disable`. -/
def disable (m : Manager) : Manager := { m with isEnabled := false }

/-- The in-memory effect of a successful `Manager.Load`: the playlist
id is recorded, the track list is replaced wholesale by the externally
resolved tracks (supplied as the `resolved` parameter; fetching and
embeddability filtering are external), the cursor resets to 0, and
`reshuffleLocked` installs a freshly generated permutation (`perm`). -/
def load (m : Manager) (pid : String) (resolved : List Track)
    (perm : List (Int × Int)) : Manager :=
  { m with playlistID := pid
           tracks := resolved
           currentIndex := 0
           shuffleMap := perm }

end Manager

/-- `player.historySize`. -/
def historySize : Nat := 100

/-- `player.Player`: the mutex, config manager, youtube client and the
update channel are external; the broadcast side effect is reported in
`PlayerRet.bcast`. -/
structure Player where
  q : List Track
  hist : RingBuffer
  cur : Option Track
  state : String
  pl : Option Manager
deriving Repr, DecidableEq

/-- The observable outcome of one Player operation: the updated player,
the returned error message (if any), and whether a snapshot was offered
to the updates channel (`broadcast()` ran). -/
structure PlayerRet where
  p : Player
  err : Option String
  bcast : Bool
deriving Repr, DecidableEq

namespace Player

/-- `player.New`. -/
def new : Player :=
  { q := [], hist := RingBuffer.new historySize, cur := none
    state := "stopped", pl := none }

/-- `Player.playNext` (internal): pulls from the Priority queue first,
then from the fallback playlist when enabled, else stops. `now` stands
for `time.Now()` used when the playlist materialises a fresh track. -/
def playNext (p : Player) (now : Int) : Player :=
  match Priority.next p.q with
  | (some t, q1) => { p with q := q1, cur := some t, state := "playing" }
  | (none, _) =>
    match p.pl with
    | some pl =>
      if pl.isEnabled then
        match pl.getNext now with
        | some t => { p with cur := some t, state := "playing" }
        | none => { p with cur := none, state := "stopped" }
      else { p with cur := none, state := "stopped" }
    | none => { p with cur := none, state := "stopped" }

/-- The counting loop of `Player.canRepeat`: walks the history snapshot
newest-to-oldest, counting entries with the given video id, stopping as
soon as `cnt` reaches `limit`. A `none` element would be a nil
dereference in Go; it counts as no match here and never occurs in
reachable states. -/
def canRepeatCount : List (Option Track) → String → Int → Int → Int
  | [], _, _, cnt => cnt
  | ot :: ts, id, limit, cnt =>
    if cnt < limit then
      canRepeatCount ts id limit
        (if ot.any (fun t => t.videoID = id) then cnt + 1 else cnt)
    else cnt

/-- `Player.canRepeat`: true when the track may be admitted, i.e. the
capped match count stays below the configured repeat limit (0 means
unlimited). -/
def canRepeat (p : Player) (cfg : Config) (id : String) : Bool :=
  let limit := cfg.repeatLimit
  if limit = 0 then true
  else
    let hist := p.hist.snapshot
    let cnt := canRepeatCount hist.reverse id limit 0
    cnt < limit

/-- `Player.ValidateAndAdd`. The metadata lookup is external, so its
result (`infoRes`) and the current time (`now`) are parameters; a
lookup failure propagates as the admission error. Validation order
follows the source: duration, views, repeat limit, queue capacity; on
acceptance the track is added and, from an idle stopped player,
`playNext` starts playback. -/
def validateAndAdd (p : Player) (cfg : Config) (vid by_ : String)
    (paid : Bool) (infoRes : Except String VideoInfo) (now : Int) : PlayerRet :=
  match infoRes with
  | Except.error e => ⟨p, some e, false⟩
  | Except.ok info =>
    let t : Track :=
      { videoID := vid, title := info.title, durationSec := info.duration
        views := info.views, addedAt := now, addedBy := by_, isPaid := paid }
    if 0 < cfg.maxDurationMinutes ∧ cfg.maxDurationMinutes * 60 < t.durationSec then
      let n := cfg.maxDurationMinutes
      ⟨p, some s!"track too long (max {n} minutes)", false⟩
    else if 0 < cfg.minViews ∧ t.views < cfg.minViews then
      let n := cfg.minViews
      ⟨p, some s!"insufficient views (min {n})", false⟩
    else if ¬ p.canRepeat cfg vid then
      ⟨p, some "track recently played (repeat limit reached)", false⟩
    else
      let total : Int := (p.q.length : Int) + (if p.cur.isSome then 1 else 0)
      if cfg.maxQueueSize ≤ total then
        let n := cfg.maxQueueSize
        ⟨p, some s!"queue is full (max {n} tracks)", false⟩
      else
        let wasEmpty := total = 0
        let p1 := { p with q := Priority.add p.q t }
        let p2 := if p1.state = "stopped" ∧ wasEmpty then p1.playNext now else p1
        ⟨p2, none, true⟩

/-- `Player.Play`. -/
def play (p : Player) (now : Int) : PlayerRet :=
  if p.q.length = 0 ∧ p.cur = none then
    match p.pl with
    | some pl =>
      if pl.isEnabled then ⟨p.playNext now, none, true⟩
      else ⟨p, some "queue is empty", false⟩
    | none => ⟨p, some "queue is empty", false⟩
  else
    match p.cur with
    | none => ⟨p.playNext now, none, true⟩
    | some _ => ⟨{ p with state := "playing" }, none, true⟩

/-- `Player.Pause`: idempotent; broadcasts only when the state actually
changes. -/
def pause (p : Player) : PlayerRet :=
  if p.state ≠ "paused" then ⟨{ p with state := "paused" }, none, true⟩
  else ⟨p, none, false⟩

/-- `Player.Stop`: when not already stopped, stops and disables the
fallback playlist; when already stopped it does nothing at all. -/
def stop (p : Player) : PlayerRet :=
  if p.state ≠ "stopped" then
    ⟨{ p with state := "stopped", pl := p.pl.map Manager.disable }, none, true⟩
  else ⟨p, none, false⟩

/-- `Player.Next`: pushes the current track (if any) onto history,
advances the playlist cursor when that track was playlist-origin, then
plays the next candidate. `fresh` is the externally generated shuffle
permutation used if the advance wraps while shuffled. -/
def next (p : Player) (now : Int) (fresh : List (Int × Int)) : PlayerRet :=
  let p1 : Player :=
    match p.cur with
    | some c =>
      let pA : Player := { p with hist := p.hist.push c }
      if c.addedBy = "Playlist" ∧ pA.pl.isSome then
        { pA with pl := pA.pl.map (fun m => m.advanceToNext fresh) }
      else pA
    | none => p
  ⟨p1.playNext now, none, true⟩

/-- `Player.Previous`: fails when history is empty; otherwise the
current track is put back (playlist cursor step-back for a
playlist-origin track, queue front-insertion otherwise), the popped
history entry becomes current, stepping the cursor back once more when
that entry is playlist-origin. A nil popped slot would be a nil
dereference in Go (unreachable); it is modelled as an error leaving the
player unchanged. -/
def previous (p : Player) : PlayerRet :=
  if p.hist.len = 0 then ⟨p, some "no previous track available", false⟩
  else
    let p1 :=
      match p.cur with
      | some c =>
        if c.addedBy = "Playlist" ∧ p.pl.isSome then
          { p with pl := p.pl.map Manager.goToPrevious }
        else { p with q := Priority.addFront p.q c }
      | none => p
    match p1.hist.pop with
    | (some prev, hist1) =>
      let p2 :=
        if prev.addedBy = "Playlist" ∧ p1.pl.isSome then
          { p1 with pl := p1.pl.map Manager.goToPrevious }
        else p1
      ⟨{ p2 with hist := hist1, cur := some prev, state := "playing" }, none, true⟩
    | (none, _) => ⟨p, some "nil history entry", false⟩

/-- `Player.PlaylistJump`: validates the playlist and index, advances
the cursor to `idx + 1` best-effort (an out-of-range advance is
swallowed), pushes the current track to history and makes the looked-up
track current. -/
def playlistJump (p : Player) (idx : Int) (now : Int) : PlayerRet :=
  match p.pl with
  | none => ⟨p, some "no playlist loaded", false⟩
  | some pl =>
    match pl.getAt idx now with
    | none => ⟨p, some "index out of range", false⟩
    | some t =>
      let pl1 :=
        match pl.jumpToIndex (idx + 1) with
        | Except.ok m => m
        | Except.error _ => pl
      let p1 := { p with pl := some pl1 }
      let p2 :=
        match p1.cur with
        | some c => { p1 with hist := p1.hist.push c }
        | none => p1
      ⟨{ p2 with cur := some t, state := "playing" }, none, true⟩

/-- `Player.Remove`: bounds-checked removal from the pending queue. -/
def remove (p : Player) (idx : Int) : PlayerRet :=
  match Priority.removeAt p.q idx with
  | none => ⟨p, some "index out of range", false⟩
  | some (_, q1) => ⟨{ p with q := q1 }, none, true⟩

/-- `Player.Clear`: empties the queue, drops the current track and
stops. -/
def clear (p : Player) : PlayerRet :=
  ⟨{ p with q := [], cur := none, state := "stopped" }, none, true⟩

/-- `Player.CleanupOld`: evicts pending tracks whose `addedAt` is not
after `now - hours` (modelled with hour-granularity integer time).
Returns without touching anything when `hours = 0` or when nothing
would be removed; otherwise rebuilds the queue from the kept tracks
via `Priority.add` and stops the player if it ended up idle. -/
def cleanupOld (p : Player) (hours : Int) (now : Int) : PlayerRet :=
  if hours = 0 then ⟨p, none, false⟩
  else
    let cutoff := now - hours
    let keep := p.q.filter fun t => cutoff < t.addedAt
    let removed := p.q.length - keep.length
    if removed = 0 then ⟨p, none, false⟩
    else
      let q1 := keep.foldl Priority.add []
      let p1 : Player := { p with q := q1 }
      let p2 : Player :=
        if p1.q.length = 0 ∧ p1.cur = none then { p1 with state := "stopped" }
        else p1
      ⟨p2, none, true⟩

end Player

/-! ### Concrete fixtures used by the witnesses and counterexamples -/

/-- An unpaid viewer track. -/
def trackA : Track := ⟨"a", "Song A", 180, 1000, 0, "viewer1", false⟩

/-- A second unpaid viewer track, distinct from `trackA`. -/
def trackB : Track := ⟨"b", "Song B", 200, 2000, 0, "viewer2", false⟩

/-- A paid (donation) track. -/
def trackP : Track := ⟨"p", "Paid Song", 150, 500, 0, "donor", true⟩

/-- A player whose history holds `trackA` then `trackB` (so `trackB` is
the most recently played) and that is currently between tracks. -/
def playerAB : Player :=
  { q := [], hist := ((RingBuffer.new historySize).push trackA).push trackB
    cur := none, state := "playing", pl := none }

/-- Configuration for the §8 capacity scenario: only `maxQueueSize = 2`
is set. -/
def cfgMax2 : Config := ⟨0, 0, 0, 2⟩

/-- Successful metadata lookups for the scenario videos. -/
def infoA : VideoInfo := ⟨"Song A", 180, 1000, true⟩

/-- Metadata for video B. -/
def infoB : VideoInfo := ⟨"Song B", 200, 2000, true⟩

/-- Metadata for video C. -/
def infoC : VideoInfo := ⟨"Song C", 150, 500, true⟩

/-- Step 1 of the capacity scenario: admit unpaid A into an empty
stopped player. -/
def step4A : PlayerRet :=
  Player.new.validateAndAdd cfgMax2 "A" "u1" false (Except.ok infoA) 1

/-- Step 2: admit unpaid B. -/
def step4B : PlayerRet :=
  step4A.p.validateAndAdd cfgMax2 "B" "u2" false (Except.ok infoB) 2

/-- Step 3: attempt to admit paid C. -/
def step4C : PlayerRet :=
  step4B.p.validateAndAdd cfgMax2 "C" "u3" true (Except.ok infoC) 3

/-- A loaded, enabled fallback playlist holding no tracks. -/
def emptyEnabledPl : Manager := { Manager.new with isEnabled := true }

/-- A stopped, idle player whose fallback playlist is enabled but holds
no tracks. -/
def playerEmptyPl : Player := { Player.new with pl := some emptyEnabledPl }

/-- An enabled fallback playlist holding one track. -/
def oneTrackPl : Manager := { Manager.new with isEnabled := true, tracks := [trackA] }

/-- An already-stopped player with an enabled one-track fallback
playlist. -/
def playerStoppedPl : Player := { Player.new with pl := some oneTrackPl }

/-- An already-paused player. -/
def playerPaused : Player := { Player.new with state := "paused", cur := some trackA }

/-! ### Priority queue ordering lemmas -/

namespace Priority

/-- Folding a batch of `add` calls over a queue, in call order. -/
def applyAdds (items adds : List Track) : List Track :=
  adds.foldl add items

theorem paidPrefixLen_partition (P U : List Track)
    (hP : ∀ t ∈ P, t.isPaid = true) (hU : ∀ t ∈ U, t.isPaid = false) :
    paidPrefixLen (P ++ U) = P.length := by
  induction P with
  | nil =>
    cases U with
    | nil => rfl
    | cons u us => simp [paidPrefixLen, hU u (by simp)]
  | cons t ts ih =>
    have ht := hP t (by simp)
    have := ih (fun x hx => hP x (by simp [hx]))
    simp [paidPrefixLen, ht, this]

theorem add_unpaid (items : List Track) (a : Track) (ha : a.isPaid = false) :
    add items a = items ++ [a] := by
  simp [add, addLocked, ha]

theorem add_paid_partition (P U : List Track) (a : Track)
    (hP : ∀ t ∈ P, t.isPaid = true) (hU : ∀ t ∈ U, t.isPaid = false)
    (ha : a.isPaid = true) :
    add (P ++ U) a = P ++ a :: U := by
  simp [add, addLocked, ha, paidPrefixLen_partition P U hP hU,
    List.take_left, List.drop_left]

theorem applyAdds_partition (adds : List Track) :
    ∀ P U : List Track,
      (∀ t ∈ P, t.isPaid = true) → (∀ t ∈ U, t.isPaid = false) →
      applyAdds (P ++ U) adds
        = (P ++ adds.filter fun t => t.isPaid)
          ++ (U ++ adds.filter fun t => !t.isPaid) := by
  induction adds with
  | nil => intro P U _ _; simp [applyAdds]
  | cons a rest ih =>
    intro P U hP hU
    by_cases ha : a.isPaid = true
    · have hstep : applyAdds (P ++ U) (a :: rest)
          = applyAdds ((P ++ [a]) ++ U) rest := by
        simp [applyAdds, add_paid_partition P U a hP hU ha]
      have hP1 : ∀ t ∈ P ++ [a], t.isPaid = true := by
        intro x hx
        rcases List.mem_append.mp hx with h | h
        · exact hP x h
        · simp at h; subst h; exact ha
      rw [hstep, ih (P ++ [a]) U hP1 hU]
      simp [List.filter_cons, ha]
    · have ha2 : a.isPaid = false := by
        cases h : a.isPaid
        · rfl
        · exact absurd h ha
      have hstep : applyAdds (P ++ U) (a :: rest)
          = applyAdds (P ++ (U ++ [a])) rest := by
        simp [applyAdds, add_unpaid (P ++ U) a ha2]
      have hU1 : ∀ t ∈ U ++ [a], t.isPaid = false := by
        intro x hx
        rcases List.mem_append.mp hx with h | h
        · exact hU x h
        · simp at h; subst h; exact ha2
      rw [hstep, ih P (U ++ [a]) hP hU1]
      simp [List.filter_cons, ha2]

theorem addFront_cons (items : List Track) (t : Track) :
    addFront items t = t :: items := by
  simp [addFront, addLocked]

theorem add_paid_cons_head (T a : Track) (rest : List Track)
    (hT : T.isPaid = true) (ha : a.isPaid = true) :
    add (T :: rest) a
      = T :: (rest.take (paidPrefixLen rest)
              ++ a :: rest.drop (paidPrefixLen rest)) := by
  simp [add, addLocked, ha, paidPrefixLen, hT,
    List.take_succ_cons, List.drop_succ_cons]

theorem foldl_add_paid_head (T : Track) (hT : T.isPaid = true) :
    ∀ (adds rest : List Track), (∀ a ∈ adds, a.isPaid = true) →
      ∃ rest2, adds.foldl add (T :: rest) = T :: rest2 := by
  intro adds
  induction adds with
  | nil => intro rest _; exact ⟨rest, rfl⟩
  | cons a as ih =>
    intro rest hall
    rw [List.foldl_cons, add_paid_cons_head T a rest hT (hall a (by simp))]
    exact ih _ (fun x hx => hall x (by simp [hx]))

end Priority

/-! ### C3 -/

/-- C3: starting from an empty Priority queue, after any sequence of
`add` calls the contents are exactly the paid tracks as a contiguous
prefix in insertion order, followed by the unpaid tracks in insertion
order. (Applying this to every initial segment of the call sequence
gives the invariant "at every point".) -/
theorem c3_paid_prefix_invariant (adds : List Track) :
    Priority.applyAdds [] adds
      = (adds.filter fun t => t.isPaid) ++ (adds.filter fun t => !t.isPaid) := by
  have h := Priority.applyAdds_partition adds [] []
    (by intro t ht; cases ht) (by intro t ht; cases ht)
  simpa using h

/-! ### C2 (amended) -/

/-- C2 (amended): after `next()` returns `T` and `T` is pushed back via
`addFront`, a subsequent `next()` returns `T` again provided the paid
tracks added in between do not outrank it — that is, when `T` itself is
paid, or when no tracks were added in between. (For an unpaid `T`, a
paid track added in between is inserted at position 0 ahead of it; see
the counterexample.) -/
theorem c2_addFront_roundtrip (q : List Track) (T : Track) (q1 : List Track)
    (adds : List Track)
    (hnext : Priority.next q = (some T, q1))
    (hadds : ∀ a ∈ adds, a.isPaid = true)
    (hTp : T.isPaid = true ∨ adds = []) :
    (Priority.next (adds.foldl Priority.add (Priority.addFront q1 T))).1
      = some T := by
  rw [Priority.addFront_cons]
  rcases hTp with hTp | rfl
  · obtain ⟨rest2, hrest2⟩ := Priority.foldl_add_paid_head T hTp adds q1 hadds
    rw [hrest2]
    rfl
  · rfl

/-- C2 witness: a concrete paid round trip through `next`, `addFront`
and a paid `add`. -/
theorem c2_addFront_roundtrip_witness :
    Priority.next [trackP] = (some trackP, [])
    ∧ (Priority.next ([⟨"p2", "Paid 2", 100, 100, 0, "donor2", true⟩].foldl
          Priority.add (Priority.addFront [] trackP))).1 = some trackP :=
  ⟨by decide,
    c2_addFront_roundtrip [trackP] trackP [] [⟨"p2", "Paid 2", 100, 100, 0, "donor2", true⟩]
      (by decide) (by decide) (Or.inl (by decide))⟩

/-! ### C1 -/

/-- C1: the claim says `pop()` is LIFO (most-recently pushed first) and
that `Previous()` makes the most recent history entry current. The code
disagrees: after pushing `trackA` then `trackB`, `Pop` computes index
`(head - 1 - size%cap + cap) % cap` with the already-decremented size,
which is the OLDEST occupied slot, so it returns `trackA` (FIFO), and
`Previous()` on the same history makes `trackA` — not the most recent
`trackB` — the current track. -/
theorem c1_pop_fifo_divergence :
    ((((RingBuffer.new historySize).push trackA).push trackB).pop).1 = some trackA
    ∧ ((((RingBuffer.new historySize).push trackA).push trackB).pop).1 ≠ some trackB
    ∧ (playerAB.previous).p.cur = some trackA
    ∧ (playerAB.previous).p.cur ≠ some trackB := by
  refine ⟨by decide, by decide, by decide, by decide⟩

/-! ### C4 -/

/-- C4: from an empty stopped player with `maxQueueSize = 2`, admitting
unpaid A succeeds and autoplay makes A current with an empty pending
queue; admitting unpaid B succeeds leaving the pending queue `[B]`;
admitting paid C is rejected with "queue is full (max 2 tracks)" and
changes nothing (and emits no broadcast). -/
theorem c4_capacity_scenario :
    (step4A.err = none ∧ step4A.p.q = []
      ∧ step4A.p.cur = some ⟨"A", "Song A", 180, 1000, 1, "u1", false⟩
      ∧ step4A.p.state = "playing")
    ∧ (step4B.err = none
      ∧ step4B.p.q = [⟨"B", "Song B", 200, 2000, 2, "u2", false⟩])
    ∧ (step4C.err = some "queue is full (max 2 tracks)"
      ∧ step4C.p = step4B.p ∧ step4C.bcast = false) := by
  refine ⟨⟨by decide, by decide, by decide, by decide⟩,
    ⟨by decide, by decide⟩, ⟨by decide, by decide, by decide⟩⟩

/-! ### C2 counterexample -/

/-- C2 counterexample: with unpaid `trackA`, calling `next()` on the
queue `[trackA]` (returning it), then `addFront(trackA)`, then one paid
`add(trackP)`, then `next()`, returns the paid track — not `trackA` —
because `addLocked` inserts a paid track at the end of the paid prefix,
which is position 0 when the front element is unpaid. -/
theorem c2_counterexample :
    Priority.next [trackA] = (some trackA, [])
    ∧ trackP.isPaid = true
    ∧ (Priority.next (Priority.add (Priority.addFront [] trackA) trackP)).1
        = some trackP
    ∧ (Priority.next (Priority.add (Priority.addFront [] trackA) trackP)).1
        ≠ some trackA := by
  refine ⟨by decide, by decide, by decide, by decide⟩

/-! ### C5 -/

/-- The number of entries of a history snapshot carrying the given
video id. -/
def histMatches (hist : List (Option Track)) (id : String) : Nat :=
  (hist.filter fun ot => ot.any fun t => t.videoID = id).length

theorem canRepeatCount_eq (id : String) (limit : Int) :
    ∀ (l : List (Option Track)) (cnt : Int), cnt ≤ limit →
      Player.canRepeatCount l id limit cnt
        = min limit (cnt + (histMatches l id : Int)) := by
  intro l
  induction l with
  | nil =>
    intro cnt h
    simp [Player.canRepeatCount, histMatches, min_eq_right h]
  | cons ot ts ih =>
    intro cnt h
    rcases lt_or_ge cnt limit with hlt | hge
    · rw [Player.canRepeatCount, if_pos hlt]
      by_cases hm : (ot.any fun t => t.videoID = id) = true
      · rw [if_pos hm, ih (cnt + 1) (by omega)]
        have : histMatches (ot :: ts) id = histMatches ts id + 1 := by
          simp [histMatches, List.filter_cons, hm]
        rw [this]
        push_cast
        ring_nf
      · rw [if_neg hm, ih cnt h]
        have : histMatches (ot :: ts) id = histMatches ts id := by
          simp [histMatches, List.filter_cons, hm]
        rw [this]
    · have heq : cnt = limit := le_antisymm h hge
      rw [Player.canRepeatCount, if_neg (by omega)]
      have : limit ≤ cnt + (histMatches (ot :: ts) id : Int) := by
        have : (0 : Int) ≤ (histMatches (ot :: ts) id : Int) := Int.ofNat_nonneg _
        omega
      rw [min_eq_left this, heq]

theorem canRepeat_false_iff (p : Player) (cfg : Config) (id : String)
    (hN : 0 < cfg.repeatLimit) :
    p.canRepeat cfg id = false
      ↔ cfg.repeatLimit ≤ (histMatches p.hist.snapshot id : Int) := by
  unfold Player.canRepeat
  rw [if_neg (by omega)]
  show (decide (Player.canRepeatCount p.hist.snapshot.reverse id
      cfg.repeatLimit 0 < cfg.repeatLimit)) = false
    ↔ cfg.repeatLimit ≤ (histMatches p.hist.snapshot id : Int)
  rw [canRepeatCount_eq id cfg.repeatLimit _ 0 (by omega)]
  have hrev : histMatches p.hist.snapshot.reverse id
      = histMatches p.hist.snapshot id := by
    simp [histMatches, List.filter_reverse]
  rw [hrev]
  have hm0 : (0 : Int) ≤ (histMatches p.hist.snapshot id : Int) :=
    Int.ofNat_nonneg _
  simp only [decide_eq_false_iff_not, not_lt, zero_add]
  rw [min_def]
  constructor
  · intro hle
    by_contra hcon
    push_neg at hcon
    split at hle <;> omega
  · intro hle
    split <;> omega

theorem validateAndAdd_err_repeat (p : Player) (cfg : Config)
    (vid by_ : String) (paid : Bool) (info : VideoInfo) (now : Int)
    (hdur : ¬(0 < cfg.maxDurationMinutes
              ∧ cfg.maxDurationMinutes * 60 < info.duration))
    (hviews : ¬(0 < cfg.minViews ∧ info.views < cfg.minViews))
    (hq : (p.q.length : Int) + (if p.cur.isSome then 1 else 0)
            < cfg.maxQueueSize) :
    (p.validateAndAdd cfg vid by_ paid (Except.ok info) now).err
      = if p.canRepeat cfg vid then none
        else some "track recently played (repeat limit reached)" := by
  have hq' : ¬ (cfg.maxQueueSize
      ≤ (p.q.length : Int) + (if p.cur.isSome then 1 else 0)) :=
    not_le.mpr hq
  by_cases hcr : p.canRepeat cfg vid = true
  · simp [Player.validateAndAdd, hdur, hviews, hcr, hq']
  · have hf : p.canRepeat cfg vid = false := by
      cases hcc : p.canRepeat cfg vid
      · rfl
      · exact absurd hcc hcr
    simp [Player.validateAndAdd, hdur, hviews, hf]

/-- C5: with repeat limit `N > 0` (and the duration, view-count and
queue-capacity checks passing), `ValidateAndAdd` rejects with the
repeat-limit error exactly when the video id occurs at least `N` times
anywhere in the history snapshot (the newest-to-oldest scan with its
early stop counts exactly that), it succeeds exactly when the count is
below `N`; and with `repeatLimit = 0` it always succeeds. -/
theorem c5_repeat_limit (p : Player) (cfg : Config) (vid by_ : String)
    (paid : Bool) (info : VideoInfo) (now : Int)
    (hdur : ¬(0 < cfg.maxDurationMinutes
              ∧ cfg.maxDurationMinutes * 60 < info.duration))
    (hviews : ¬(0 < cfg.minViews ∧ info.views < cfg.minViews))
    (hq : (p.q.length : Int) + (if p.cur.isSome then 1 else 0)
            < cfg.maxQueueSize) :
    (0 < cfg.repeatLimit →
      ((p.validateAndAdd cfg vid by_ paid (Except.ok info) now).err
          = some "track recently played (repeat limit reached)"
        ↔ cfg.repeatLimit ≤ (histMatches p.hist.snapshot vid : Int)))
    ∧ (0 < cfg.repeatLimit →
      ((p.validateAndAdd cfg vid by_ paid (Except.ok info) now).err = none
        ↔ (histMatches p.hist.snapshot vid : Int) < cfg.repeatLimit))
    ∧ (cfg.repeatLimit = 0 →
      (p.validateAndAdd cfg vid by_ paid (Except.ok info) now).err = none) := by
  have hch := validateAndAdd_err_repeat p cfg vid by_ paid info now hdur hviews hq
  refine ⟨?_, ?_, ?_⟩
  · intro hN
    rw [hch]
    constructor
    · intro h
      by_cases hcr : p.canRepeat cfg vid = true
      · rw [if_pos hcr] at h; cases h
      · exact (canRepeat_false_iff p cfg vid hN).mp (by
          cases hcc : p.canRepeat cfg vid
          · rfl
          · exact absurd hcc hcr)
    · intro h
      have hf : p.canRepeat cfg vid = false :=
        (canRepeat_false_iff p cfg vid hN).mpr h
      rw [hf]
      simp
  · intro hN
    rw [hch]
    constructor
    · intro h
      by_cases hcr : p.canRepeat cfg vid = true
      · have hnot : ¬ (cfg.repeatLimit ≤ (histMatches p.hist.snapshot vid : Int)) := by
          intro hle
          have := (canRepeat_false_iff p cfg vid hN).mpr hle
          rw [this] at hcr; cases hcr
        omega
      · have hf : p.canRepeat cfg vid = false := by
          cases hcc : p.canRepeat cfg vid
          · rfl
          · exact absurd hcc hcr
        rw [hf] at h
        simp at h
    · intro h
      have ht : p.canRepeat cfg vid = true := by
        cases hcc : p.canRepeat cfg vid
        · have := (canRepeat_false_iff p cfg vid hN).mp hcc
          omega
        · rfl
      rw [if_pos ht]
  · intro h0
    have ht : p.canRepeat cfg vid = true := by
      unfold Player.canRepeat
      rw [if_pos h0]
    rw [hch, if_pos ht]

/-- A previously played track with video id `"X"`. -/
def trackX : Track := ⟨"X", "Song X", 120, 900, 0, "viewer9", false⟩

/-- A playing player whose history holds one entry for video id `"X"`. -/
def playerHistX : Player :=
  { q := [], hist := (RingBuffer.new historySize).push trackX
    cur := some trackB, state := "playing", pl := none }

/-- Config with `repeatLimit = 1` and a roomy queue. -/
def cfgRepeat1 : Config := ⟨0, 0, 1, 100⟩

/-- Metadata for re-submitting video `"X"`. -/
def infoX : VideoInfo := ⟨"Song X", 120, 900, true⟩

/-- Metadata for submitting a fresh video `"Y"`. -/
def infoY : VideoInfo := ⟨"Song Y", 130, 800, true⟩

/-- C5 witness: with `repeatLimit = 1` and one prior history entry for
`"X"`, re-admitting `"X"` is rejected with the repeat-limit error and
admitting a different `"Y"` is accepted. -/
theorem c5_repeat_limit_witness :
    (playerHistX.validateAndAdd cfgRepeat1 "X" "u" false (Except.ok infoX) 4).err
        = some "track recently played (repeat limit reached)"
    ∧ (playerHistX.validateAndAdd cfgRepeat1 "Y" "u" false (Except.ok infoY) 4).err
        = none :=
  ⟨((c5_repeat_limit playerHistX cfgRepeat1 "X" "u" false infoX 4
      (by decide) (by decide) (by decide)).1 (by decide)).mpr (by decide),
   ((c5_repeat_limit playerHistX cfgRepeat1 "Y" "u" false infoY 4
      (by decide) (by decide) (by decide)).2.1 (by decide)).mpr (by decide)⟩

/-! ### C6 counterexample -/

/-- C6 counterexample: with no current track, an empty priority queue
and an enabled fallback playlist that holds no tracks, `Play()` does
NOT fail with "queue is empty": it returns success (and broadcasts),
leaving the player stopped with no current track. -/
theorem c6_counterexample :
    playerEmptyPl.q = [] ∧ playerEmptyPl.cur = none
    ∧ playerEmptyPl.state = "stopped"
    ∧ playerEmptyPl.pl.map Manager.isEnabled = some true
    ∧ playerEmptyPl.pl.map Manager.tracks = some []
    ∧ (playerEmptyPl.play 0).err = none
    ∧ (playerEmptyPl.play 0).p.state = "stopped"
    ∧ (playerEmptyPl.play 0).bcast = true := by
  refine ⟨by decide, by decide, by decide, by decide, by decide, by decide,
    by decide, by decide⟩

/-- C6 (amended): with no current track and an empty Priority queue,
`Play()` fails with "queue is empty" (leaving the player untouched and
broadcasting nothing) when the fallback playlist is absent or disabled;
when the fallback is enabled but yields no track it instead returns
success while the player ends up stopped with no current track and an
empty queue. -/
theorem c6_play_empty (p : Player) (now : Int)
    (hq : p.q = []) (hcur : p.cur = none) :
    ((p.pl = none ∨ ∃ pl, p.pl = some pl ∧ pl.isEnabled = false) →
      p.play now = ⟨p, some "queue is empty", false⟩)
    ∧ (∀ pl, p.pl = some pl → pl.isEnabled = true → pl.tracks = [] →
      (p.play now).err = none ∧ (p.play now).p.cur = none
        ∧ (p.play now).p.state = "stopped" ∧ (p.play now).p.q = []
        ∧ (p.play now).bcast = true) := by
  constructor
  · intro hpl
    rcases hpl with hpl | ⟨pl, hpl, hdis⟩
    · simp [Player.play, hq, hcur, hpl]
    · simp [Player.play, hq, hcur, hpl, hdis]
  · intro pl hpl hen htr
    have hgn : pl.getNext now = none := by
      simp [Manager.getNext, htr]
    simp [Player.play, hq, hcur, hpl, hen, Player.playNext, Priority.next, hgn]

/-- C6 witness: a playlist-less idle player fails with "queue is
empty", while the enabled-but-empty-playlist player succeeds. -/
theorem c6_play_empty_witness :
    Player.play Player.new 0 = ⟨Player.new, some "queue is empty", false⟩
    ∧ (playerEmptyPl.play 0).err = none :=
  ⟨(c6_play_empty Player.new 0 rfl rfl).1 (Or.inl rfl),
   ((c6_play_empty playerEmptyPl 0 rfl rfl).2 emptyEnabledPl rfl rfl rfl).1⟩

/-! ### C7 counterexample -/

/-- C7 counterexample: invoking `Stop()` on an already-stopped player
is a complete no-op, so the fallback playlist stays enabled and a
subsequent `Play()` does resume from the fallback (its first track
becomes current). -/
theorem c7_counterexample :
    playerStoppedPl.state = "stopped"
    ∧ Player.stop playerStoppedPl = ⟨playerStoppedPl, none, false⟩
    ∧ ((Player.stop playerStoppedPl).p.pl.map Manager.isEnabled) = some true
    ∧ ((Player.stop playerStoppedPl).p.play 9).p.cur
        = some (Manager.freshTrack trackA 9) := by
  refine ⟨by decide, by decide, by decide, by decide⟩

/-- C7 (amended): from every state other than `stopped`, `Stop()`
transitions to `stopped` and disables the fallback playlist, after
which an idle `Play()` cannot resume from the fallback; from the
already-stopped state, `Stop()` is a complete no-op that in particular
leaves the fallback playlist's enabled flag untouched. -/
theorem c7_stop_behavior (p : Player) :
    (p.state ≠ "stopped" →
      Player.stop p
          = ⟨{ p with state := "stopped", pl := p.pl.map Manager.disable },
             none, true⟩
      ∧ (∀ pl, p.pl = some pl →
          (Player.stop p).p.pl.map Manager.isEnabled = some false)
      ∧ (p.q = [] → p.cur = none → ∀ now,
          ((Player.stop p).p.play now)
            = ⟨(Player.stop p).p, some "queue is empty", false⟩))
    ∧ (p.state = "stopped" → Player.stop p = ⟨p, none, false⟩) := by
  constructor
  · intro hst
    refine ⟨by simp [Player.stop, hst], ?_, ?_⟩
    · intro pl hpl
      simp [Player.stop, hst, hpl, Manager.disable]
    · intro hq hcur now
      have hstop : (Player.stop p).p
          = { p with state := "stopped", pl := p.pl.map Manager.disable } := by
        simp [Player.stop, hst]
      rw [hstop]
      cases hpl : p.pl with
      | none => simp [Player.play, hq, hcur, hpl]
      | some pl => simp [Player.play, hq, hcur, hpl, Manager.disable]
  · intro hst
    simp [Player.stop, hst]

/-- C7 witness: stopping a playing player with an enabled one-track
fallback playlist disables the fallback and a subsequent idle `Play()`
fails instead of resuming. -/
theorem c7_stop_behavior_witness :
    (Player.stop { Player.new with state := "playing", pl := some oneTrackPl }).p.pl.map
        Manager.isEnabled = some false
    ∧ ((Player.stop { Player.new with state := "playing", pl := some oneTrackPl }).p.play 3)
        = ⟨(Player.stop { Player.new with state := "playing", pl := some oneTrackPl }).p,
           some "queue is empty", false⟩ :=
  ⟨((c7_stop_behavior { Player.new with state := "playing", pl := some oneTrackPl }).1
      (by decide)).2.1 oneTrackPl rfl,
   ((c7_stop_behavior { Player.new with state := "playing", pl := some oneTrackPl }).1
      (by decide)).2.2 rfl rfl 3⟩

/-! ### C8 -/

/-- Iterated `AdvanceToNext`, one externally generated shuffle map per
call. -/
def Manager.advances (m : Manager) (perms : List (List (Int × Int))) : Manager :=
  perms.foldl Manager.advanceToNext m

theorem Manager.advanceToNext_tracks (m : Manager) (f : List (Int × Int)) :
    (m.advanceToNext f).tracks = m.tracks := by
  unfold Manager.advanceToNext
  by_cases h : (m.tracks.length : Int) ≤ m.currentIndex + 1 <;> simp [h]

theorem Manager.advances_currentIndex :
    ∀ (perms : List (List (Int × Int))) (m : Manager) (k : Nat),
      m.currentIndex = (k : Int) → k < m.tracks.length →
      k + perms.length ≤ m.tracks.length →
      (m.advances perms).currentIndex
        = if k + perms.length = m.tracks.length then 0
          else ((k + perms.length : Nat) : Int) := by
  intro perms
  induction perms with
  | nil =>
    intro m k hk hkN _
    rw [if_neg (by simp only [List.length_nil]; omega)]
    simpa [Manager.advances] using hk
  | cons f fs ih =>
    intro m k hk hkN hlen
    have hstep : m.advances (f :: fs) = (m.advanceToNext f).advances fs := rfl
    rw [hstep]
    by_cases hwrap : (m.tracks.length : Int) ≤ m.currentIndex + 1
    · have hk1 : k + 1 = m.tracks.length := by
        rw [hk] at hwrap
        have : m.tracks.length ≤ k + 1 := by exact_mod_cast hwrap
        omega
      have hfs : fs.length = 0 := by
        simp only [List.length_cons] at hlen
        omega
      have hfs' : fs = [] := List.length_eq_zero.mp hfs
      subst hfs'
      have hadv : (m.advanceToNext f).currentIndex = 0 := by
        unfold Manager.advanceToNext
        rw [if_pos hwrap]
      rw [if_pos (by simp; omega)]
      simpa [Manager.advances] using hadv
    · have hadv : (m.advanceToNext f).currentIndex = ((k + 1 : Nat) : Int) := by
        unfold Manager.advanceToNext
        rw [if_neg hwrap, hk]
        push_cast
        ring
      have hk1N : k + 1 < m.tracks.length := by
        rw [hk] at hwrap
        have : ¬ (m.tracks.length ≤ k + 1) := by
          intro hc
          exact hwrap (by exact_mod_cast hc)
        omega
      have htr := Manager.advanceToNext_tracks m f
      have := ih (m.advanceToNext f) (k + 1) hadv (htr ▸ hk1N)
        (by rw [htr]; simp only [List.length_cons] at hlen; omega)
      rw [this, htr]
      simp only [List.length_cons]
      by_cases hend : k + 1 + fs.length = m.tracks.length
      · rw [if_pos hend, if_pos (by omega)]
      · rw [if_neg hend, if_neg (by omega)]
        congr 1
        omega

/-- C8: loading a fallback playlist with `N ≥ 1` resolvable tracks
resets `currentIndex` to 0; fewer than `N` subsequent `advanceToNext`
calls land the cursor exactly at the number of calls made (so each
intermediate call increments it by exactly 1), and exactly `N` calls
bring it back to 0 (a full wrap), for every sequence of externally
generated shuffle maps. -/
theorem c8_load_wrap (m : Manager) (pid : String) (resolved : List Track)
    (perm : List (Int × Int)) (perms : List (List (Int × Int)))
    (h1 : 1 ≤ resolved.length) :
    (m.load pid resolved perm).currentIndex = 0
    ∧ (perms.length < resolved.length →
        ((m.load pid resolved perm).advances perms).currentIndex
          = (perms.length : Int))
    ∧ (perms.length = resolved.length →
        ((m.load pid resolved perm).advances perms).currentIndex = 0)
    ∧ (∀ ps f, perms = ps ++ [f] → ps.length + 1 < resolved.length →
        ((m.load pid resolved perm).advances perms).currentIndex
          = ((m.load pid resolved perm).advances ps).currentIndex + 1) := by
  have hload0 : (m.load pid resolved perm).currentIndex = 0 := rfl
  have hloadtr : (m.load pid resolved perm).tracks = resolved := rfl
  have hbase := Manager.advances_currentIndex perms (m.load pid resolved perm) 0
    hload0 (by rw [hloadtr]; omega)
  refine ⟨hload0, ?_, ?_, ?_⟩
  · intro hlt
    have := hbase (by rw [hloadtr]; omega)
    rw [hloadtr] at this
    rw [this, if_neg (by omega)]
    simp
  · intro heq
    have := hbase (by rw [hloadtr]; omega)
    rw [hloadtr] at this
    rw [this, if_pos (by omega)]
  · intro ps f hps hlt
    subst hps
    have hfull := Manager.advances_currentIndex (ps ++ [f])
      (m.load pid resolved perm) 0 hload0 (by rw [hloadtr]; omega)
      (by rw [hloadtr]; simp; omega)
    have hpart := Manager.advances_currentIndex ps
      (m.load pid resolved perm) 0 hload0 (by rw [hloadtr]; omega)
      (by rw [hloadtr]; omega)
    rw [hloadtr] at hfull hpart
    rw [hfull, hpart, if_neg (by simp; omega), if_neg (by omega)]
    simp

/-- C8 witness: a two-track playlist wraps back to index 0 after
exactly two advances, passing through index 1. -/
theorem c8_load_wrap_witness :
    (Manager.new.load "PL1" [trackA, trackB] []).currentIndex = 0
    ∧ ((Manager.new.load "PL1" [trackA, trackB] []).advances [[]]).currentIndex = 1
    ∧ ((Manager.new.load "PL1" [trackA, trackB] []).advances [[], []]).currentIndex = 0 :=
  ⟨(c8_load_wrap Manager.new "PL1" [trackA, trackB] [] [[]] (by decide)).1,
   (c8_load_wrap Manager.new "PL1" [trackA, trackB] [] [[]] (by decide)).2.1 (by decide),
   (c8_load_wrap Manager.new "PL1" [trackA, trackB] [] [[], []] (by decide)).2.2.1 (by decide)⟩

/-! ### C9 counterexample -/

/-- C9 counterexample: `Pause()` on an already-paused player succeeds
(it cannot return an error) yet emits no broadcast, so the claimed
dichotomy "fully succeeds with a broadcast, or fails with an error"
does not hold for every mutation. -/
theorem c9_counterexample :
    ¬ (((Player.pause playerPaused).err = none
          ∧ (Player.pause playerPaused).bcast = true)
        ∨ ((Player.pause playerPaused).err ≠ none
          ∧ (Player.pause playerPaused).p = playerPaused
          ∧ (Player.pause playerPaused).bcast = false)) := by
  decide

/-! ### C9 (amended) -/

/-- The per-operation property of claim C9, weakened by the no-op
escape hatch the code actually exhibits: a failing operation leaves the
player untouched and broadcasts nothing, while a non-failing operation
either broadcasts a snapshot or was a no-op that left the player
untouched. -/
def AtomicStep (p : Player) (r : PlayerRet) : Prop :=
  (r.err.isSome → r.p = p ∧ r.bcast = false)
  ∧ (r.err = none → r.bcast = true ∨ r.p = p)

theorem validateAndAdd_atomicStep (p : Player) (cfg : Config)
    (vid by_ : String) (paid : Bool) (infoRes : Except String VideoInfo)
    (now : Int) :
    AtomicStep p (p.validateAndAdd cfg vid by_ paid infoRes now) := by
  unfold AtomicStep Player.validateAndAdd
  rcases infoRes with e | info
  · simp
  · by_cases h1 : 0 < cfg.maxDurationMinutes
        ∧ cfg.maxDurationMinutes * 60 < info.duration
    · simp [h1]
    · by_cases h2 : 0 < cfg.minViews ∧ info.views < cfg.minViews
      · simp [h1, h2]
      · by_cases h3 : p.canRepeat cfg vid = true
        · by_cases h4 : cfg.maxQueueSize
              ≤ (p.q.length : Int) + (if p.cur.isSome then 1 else 0)
          · simp [h1, h2, h3, h4]
          · simp [h1, h2, h3, h4]
        · simp [h1, h2, h3]

theorem play_atomicStep (p : Player) (now : Int) :
    AtomicStep p (p.play now) := by
  unfold AtomicStep Player.play
  by_cases h : p.q.length = 0 ∧ p.cur = none
  · rw [if_pos h]
    cases hpl : p.pl with
    | none => simp
    | some pl => by_cases hen : pl.isEnabled = true <;> simp [hen]
  · rw [if_neg h]
    cases hcur : p.cur <;> simp

theorem pause_atomicStep (p : Player) : AtomicStep p p.pause := by
  unfold AtomicStep Player.pause
  split_ifs <;> simp

theorem stop_atomicStep (p : Player) : AtomicStep p p.stop := by
  unfold AtomicStep Player.stop
  split_ifs <;> simp

theorem next_atomicStep (p : Player) (now : Int) (fresh : List (Int × Int)) :
    AtomicStep p (p.next now fresh) := by
  unfold AtomicStep Player.next
  simp

theorem previous_atomicStep (p : Player) : AtomicStep p p.previous := by
  unfold AtomicStep Player.previous
  split_ifs with h
  · simp
  · split <;> (try simp only []) <;> split <;> simp

theorem playlistJump_atomicStep (p : Player) (idx now : Int) :
    AtomicStep p (p.playlistJump idx now) := by
  unfold AtomicStep Player.playlistJump
  cases hpl : p.pl with
  | none => simp
  | some pl =>
    cases hga : pl.getAt idx now with
    | none => simp [hga]
    | some t =>
      cases hcur : p.cur <;> simp [hga, hcur]

theorem remove_atomicStep (p : Player) (idx : Int) :
    AtomicStep p (p.remove idx) := by
  unfold AtomicStep Player.remove
  rcases h : Priority.removeAt p.q idx with _ | ⟨t, q1⟩ <;> simp

theorem clear_atomicStep (p : Player) : AtomicStep p p.clear := by
  unfold AtomicStep Player.clear
  simp

theorem cleanupOld_atomicStep (p : Player) (hours now : Int) :
    AtomicStep p (p.cleanupOld hours now) := by
  unfold AtomicStep Player.cleanupOld
  by_cases h0 : hours = 0
  · simp [h0]
  · rw [if_neg h0]
    by_cases hr : p.q.length
        - (p.q.filter fun t => decide (now - hours < t.addedAt)).length = 0 <;>
      simp [hr]

/-- C9 (amended): every modelled Player mutation — admission, play,
pause, stop, next, previous, playlist jump, remove, clear, cleanup —
either fails with an error while leaving the whole player (Priority
queue, History ring, current track, play state, playlist) unchanged
and emitting no broadcast, or returns no error and then either emits a
broadcast snapshot or was an idempotent no-op (already-paused pause,
already-stopped stop, cleanup that removes nothing) leaving the player
unchanged. All validation happens before any mutation. -/
theorem c9_atomic_or_noop (p : Player) (cfg : Config) (vid by_ : String)
    (paid : Bool) (infoRes : Except String VideoInfo)
    (now hours idx : Int) (fresh : List (Int × Int)) :
    AtomicStep p (p.validateAndAdd cfg vid by_ paid infoRes now)
    ∧ AtomicStep p (p.play now)
    ∧ AtomicStep p p.pause
    ∧ AtomicStep p p.stop
    ∧ AtomicStep p (p.next now fresh)
    ∧ AtomicStep p p.previous
    ∧ AtomicStep p (p.playlistJump idx now)
    ∧ AtomicStep p (p.remove idx)
    ∧ AtomicStep p p.clear
    ∧ AtomicStep p (p.cleanupOld hours now) :=
  ⟨validateAndAdd_atomicStep p cfg vid by_ paid infoRes now,
   play_atomicStep p now, pause_atomicStep p, stop_atomicStep p,
   next_atomicStep p now fresh, previous_atomicStep p,
   playlistJump_atomicStep p idx now, remove_atomicStep p idx,
   clear_atomicStep p, cleanupOld_atomicStep p hours now⟩

/-- C9 witness: a failing `Remove` on an empty queue leaves the fresh
player unchanged and broadcasts nothing. -/
theorem c9_atomic_or_noop_witness :
    (Player.remove Player.new 0).p = Player.new
    ∧ (Player.remove Player.new 0).bcast = false :=
  (c9_atomic_or_noop Player.new ⟨0, 0, 0, 2⟩ "v" "u" false
      (Except.error "lookup failed") 0 0 0 []).2.2.2.2.2.2.2.1.1 (by decide)

/-! ### C10 -/

theorem lookup_nonneg (l : List (Int × Int)) (k : Int)
    (h : ∀ pr ∈ l, 0 ≤ pr.2) :
    ∀ s, l.lookup k = some s → 0 ≤ s := by
  induction l with
  | nil => intro s hs; cases hs
  | cons a rest ih =>
    intro s hs
    rw [List.lookup] at hs
    cases hk : (k == a.1)
    · simp [hk] at hs
      exact ih (fun pr hpr => h pr (by simp [hpr])) s hs
    · simp [hk] at hs
      have := h a (by simp)
      omega

/-- C10: for every enabled fallback playlist with at least one track, a
nonnegative stored cursor and a shuffle map holding only nonnegative
targets (the only values the code ever stores), `GetNext` returns a
track — it never faults — and whenever the resolved index reaches or
exceeds the track-list length (for instance after the list shrank on a
reload) the index is silently clamped and the fresh copy of the track
at physical index 0 is returned. -/
theorem c10_getNext_clamped (m : Manager) (now : Int)
    (hen : m.isEnabled = true) (hne : m.tracks ≠ [])
    (hci : 0 ≤ m.currentIndex)
    (hmap : ∀ pr ∈ m.shuffleMap, 0 ≤ pr.2) :
    (∃ t, m.getNext now = some t)
    ∧ ((m.tracks.length : Int) ≤ m.resolveIdx →
        m.getNext now = (m.tracks.get? 0).map (Manager.freshTrack · now)) := by
  have hlen : m.tracks.length ≠ 0 := by
    intro hc
    exact hne (List.length_eq_zero.mp hc)
  have hres : 0 ≤ m.resolveIdx := by
    unfold Manager.resolveIdx
    by_cases hsh : m.isShuffled = true
    · rw [if_pos hsh]
      rcases hlk : m.shuffleMap.lookup m.currentIndex with _ | s
      · exact hci
      · exact lookup_nonneg m.shuffleMap m.currentIndex hmap s hlk
    · rw [if_neg hsh]
      exact hci
  have hgate : ¬ (¬ m.isEnabled = true ∨ m.tracks.length = 0) := by
    simp [hen, hlen]
  have hgn : m.getNext now
      = (if (if (m.tracks.length : Int) ≤ m.resolveIdx then (0 : Int)
              else m.resolveIdx) < 0
         then none
         else (m.tracks.get? (if (m.tracks.length : Int) ≤ m.resolveIdx
                 then (0 : Int) else m.resolveIdx).toNat).map
                (Manager.freshTrack · now)) := by
    unfold Manager.getNext
    rw [if_neg hgate]
  constructor
  · rw [hgn]
    by_cases hclamp : (m.tracks.length : Int) ≤ m.resolveIdx
    · rw [if_pos hclamp, if_neg (by omega)]
      rcases htr : m.tracks with _ | ⟨t0, rest⟩
      · exact absurd htr hne
      · exact ⟨Manager.freshTrack t0 now, by simp [htr]⟩
    · rw [if_neg hclamp, if_neg (by omega)]
      have hlt : m.resolveIdx.toNat < m.tracks.length :=
        (Int.toNat_lt hres).mpr (by omega)
      rcases List.get?_eq_get hlt with hget
      exact ⟨Manager.freshTrack (m.tracks.get ⟨m.resolveIdx.toNat, hlt⟩) now,
        by rw [hget]; simp⟩
  · intro hclamp
    rw [hgn, if_pos hclamp, if_neg (by omega)]
    simp

/-- A playlist whose stored cursor points past the end of its two
tracks (as after a shrinking reload). -/
def stalePl : Manager :=
  { playlistID := "PL1", tracks := [trackA, trackB], shuffleMap := []
    currentIndex := 5, isShuffled := false, isEnabled := true }

/-- C10 witness: the stale cursor 5 on a two-track playlist is clamped
and `GetNext` returns a fresh copy of the first track. -/
theorem c10_getNext_clamped_witness :
    stalePl.getNext 7 = some (Manager.freshTrack trackA 7) :=
  Eq.trans
    ((c10_getNext_clamped stalePl 7 (by decide) (by decide) (by decide)
        (by decide)).2 (by decide))
    (by decide)
